import Mathlib

/-!
# Package geodesic: the Go wrapper around the GeographicLib C routines

The Go file `geodesic.go` declares `Point`, `InvertAzimuth`, `Geodesic`,
`NewGeodesic`, `WGS84`, `Direct`, `Inverse`, `GeodesicLine`,
`NewGeodesicLine` and `Position`.  Every function except `InvertAzimuth`
is a thin cgo call into `geodesic.h` / `geodesic.c`.

Conventions of the embedding:

* `float64` and `C.double` are the same IEEE type, so the conversions
  `C.double(x)` and `float64(x)` are the identity.  The wrappers around the C
  routines perform no arithmetic; the values they forward are written in `ℚ`.
* The one arithmetic operation of the package is the `float64` addition in
  `InvertAzimuth`.  It is modelled in IEEE 754 binary64 (`Float64`): a finite
  value is the rational it denotes, a sum is rounded to nearest with ties to
  even, overflow gives an infinity, and the non-finite values propagate.  The
  two zeros are not distinguished.
* A C routine that is called by a wrapper is an argument of that wrapper
  (`cInit`, `cDirect`, `cInverse`, `cLineinit`, `cPosition`), in the argument
  order of the C declaration; output pointers become the components of the
  returned tuple, in the order of the C parameter list.
-/

namespace geodesic

/-! ## Data model -/

/-- Point represents a location on earth (`type Point struct`). -/
structure Point where
  LatitudeDeg : ℚ
  LongitudeDeg : ℚ
deriving DecidableEq

/-- Geodesic contains information about the ellipsoid: the Go struct has the
single field `g C.struct_geod_geodesic`.  The C struct type is the parameter
`G`. -/
structure Geodesic (G : Type) where
  g : G

/-- GeodesicLine contains information about a single geodesic line: the Go
struct has the single field `gl C.struct_geod_geodesicline`, here the
parameter `L`. -/
structure GeodesicLine (L : Type) where
  gl : L

/-- Modelled from the spec: `geodesic.h` is not among the sources.  The C
struct `geod_geodesic` starts with the fields `a` (equatorial radius) and `f`
(flattening); the coefficient tables derived from them are left out. -/
structure geod_geodesic where
  a : ℚ
  f : ℚ
deriving DecidableEq

/-- Modelled from the spec: `geodesic.h` is not among the sources.  The C
routine is declared `geod_init(g, a, f)`, equatorial radius first and
flattening second; this instance keeps the two values it receives in the
fields of the same name. -/
def geod_init (a : ℚ) (f : ℚ) : geod_geodesic :=
  { a := a, f := f }

/-! ## The `float64` type of Go (IEEE 754 binary64) -/

/-- A `float64` value: a finite value (the rational it denotes), an infinity
or a NaN. -/
inductive Float64 where
  | finite (v : ℚ)
  | posInf
  | negInf
  | nan
deriving DecidableEq

/-- Exponent of the binade of `x`: the greatest `e` with `2^e ≤ |x|`, and
`-1022` (the least normal exponent) below it, where the subnormals lie. -/
def binade (x : ℚ) : ℤ :=
  max (Int.log 2 |x|) (-1022)

/-- Spacing of the binary64 values around `x`: 52 fraction bits below the
exponent of the binade, so `2^-1074` for subnormals. -/
def ulp (x : ℚ) : ℚ :=
  (2 : ℚ) ^ (binade x - 52)

/-- Rounding of a rational to the nearest integer, a tie going to the even
neighbour. -/
def roundHalfEven (t : ℚ) : ℤ :=
  if t - ⌊t⌋ < 1 / 2 then ⌊t⌋
  else if 1 / 2 < t - ⌊t⌋ then ⌊t⌋ + 1
  else if ⌊t⌋ % 2 = 0 then ⌊t⌋ else ⌊t⌋ + 1

/-- Rounding of a rational to the nearest multiple of the spacing of its
binade (round to nearest, ties to even), the exponent range unbounded
above. -/
def roundFloat64 (x : ℚ) : ℚ :=
  (roundHalfEven (x / ulp x) : ℚ) * ulp x

/-- The rational `x` is a finite `float64` value: rounding leaves it unchanged
and it is below the overflow threshold `2^1024` in magnitude. -/
def isFloat64 (x : ℚ) : Prop :=
  roundFloat64 x = x ∧ -(2 : ℚ) ^ 1024 < x ∧ x < (2 : ℚ) ^ 1024

instance (x : ℚ) : Decidable (isFloat64 x) := by
  unfold isFloat64
  infer_instance

/-- The `float64` nearest to an exact result: the rounded value, or an
infinity when the rounded value reaches `2^1024` in magnitude. -/
def Float64.ofRat (x : ℚ) : Float64 :=
  if (2 : ℚ) ^ 1024 ≤ roundFloat64 x then Float64.posInf
  else if roundFloat64 x ≤ -(2 : ℚ) ^ 1024 then Float64.negInf
  else Float64.finite (roundFloat64 x)

/-- The `+` of Go on `float64`: a NaN operand or the sum of opposite
infinities gives NaN, an infinity absorbs a finite operand, and the sum of two
finite values is the exact sum rounded. -/
def Float64.add : Float64 → Float64 → Float64
  | Float64.nan, _ => Float64.nan
  | _, Float64.nan => Float64.nan
  | Float64.posInf, Float64.negInf => Float64.nan
  | Float64.negInf, Float64.posInf => Float64.nan
  | Float64.posInf, _ => Float64.posInf
  | _, Float64.posInf => Float64.posInf
  | Float64.negInf, _ => Float64.negInf
  | _, Float64.negInf => Float64.negInf
  | Float64.finite x, Float64.finite y => Float64.ofRat (x + y)

/-! ## Operations of `geodesic.go` -/

/-- InvertAzimuth, Go source: `return azDeg + 180%360`.  In Go `%` has the
precedence of `*`, above `+`, and `180%360` is an untyped integer constant
expression, so the body parses as `azDeg + (180 % 360)`: the constant is
converted to `float64` and added to `azDeg` by the `float64` addition. -/
def InvertAzimuth (azDeg : Float64) : Float64 :=
  Float64.add azDeg (Float64.ofRat (((180 % 360 : ℤ)) : ℚ))

/-- Reduction of an angle into `[0,360)`, as the words of the documentation
describe it ("convert to [0,360[ interval"), on exact values. -/
def normalize360 (x : ℚ) : ℚ :=
  x - 360 * ((⌊x / 360⌋ : ℤ) : ℚ)

/-- The documented behaviour of `InvertAzimuth`: "adds 180° and convert to
[0,360[ interval", on exact values.  This definition follows the
documentation, not the body. -/
def InvertAzimuthDocumented (azDeg : ℚ) : ℚ :=
  normalize360 (azDeg + 180)

/-- NewGeodesic, Go source:
`func NewGeodesic(f float64, a float64) Geodesic` with body
`C.geod_init(&g.g, C.double(f), C.double(a))`.
`cInit` is the C routine, with the C parameter order `(a, f)`; the call passes
the Go parameter `f` first and the Go parameter `a` second. -/
def NewGeodesic {G : Type} (cInit : (a : ℚ) → (f : ℚ) → G) (f : ℚ) (a : ℚ) : Geodesic G :=
  { g := cInit f a }

/-- WGS84, Go source: `var WGS84 = NewGeodesic(6378137, 1/298.257223563)`.
The second argument is an untyped constant expression, evaluated exactly. -/
def WGS84 {G : Type} (cInit : (a : ℚ) → (f : ℚ) → G) : Geodesic G :=
  NewGeodesic cInit 6378137 (1 / 298.257223563)

/-- Direct, Go source: calls
`geod_direct(&g.g, lat1, lon1, azi1, s12, &resLat, &resLon, &resAz)` and
returns `(Point{resLat, resLon}, resAz)`. -/
def Direct {G : Type} (cDirect : G → ℚ → ℚ → ℚ → ℚ → ℚ × ℚ × ℚ)
    (g : Geodesic G) (pt1 : Point) (az1 : ℚ) (s12 : ℚ) : Point × ℚ :=
  let res := cDirect g.g pt1.LatitudeDeg pt1.LongitudeDeg az1 s12
  let resLat := res.1
  let resLon := res.2.1
  let resAz := res.2.2
  ({ LatitudeDeg := resLat, LongitudeDeg := resLon }, resAz)

/-- Inverse, Go source: calls
`geod_inverse(&g.g, lat1, lon1, lat2, lon2, &resS12, &resAz1, &resAz2)` and
returns `(s12, az1, az2) = (resS12, resAz1, resAz2)`. -/
def Inverse {G : Type} (cInverse : G → ℚ → ℚ → ℚ → ℚ → ℚ × ℚ × ℚ)
    (g : Geodesic G) (pt1 : Point) (pt2 : Point) : ℚ × ℚ × ℚ :=
  let res := cInverse g.g pt1.LatitudeDeg pt1.LongitudeDeg pt2.LatitudeDeg pt2.LongitudeDeg
  let resS12 := res.1
  let resAz1 := res.2.1
  let resAz2 := res.2.2
  (resS12, resAz1, resAz2)

/-- NewGeodesicLine, Go source: calls
`geod_lineinit(&l.gl, &g.g, lat, lon, azDeg, 0)`; the capability mask is the
literal `0`. -/
def NewGeodesicLine {G L : Type} (cLineinit : G → ℚ → ℚ → ℚ → ℕ → L)
    (g : Geodesic G) (origin : Point) (azDeg : ℚ) : GeodesicLine L :=
  { gl := cLineinit g.g origin.LatitudeDeg origin.LongitudeDeg azDeg 0 }

/-- Position, Go source: calls
`geod_position(&l.gl, s12, &resLat, &resLon, &resAzDeg)` and returns
`(Point{resLat, resLon}, resAzDeg)`. -/
def Position {L : Type} (cPosition : L → ℚ → ℚ × ℚ × ℚ)
    (l : GeodesicLine L) (s12 : ℚ) : Point × ℚ :=
  let res := cPosition l.gl s12
  let resLat := res.1
  let resLon := res.2.1
  let resAzDeg := res.2.2
  ({ LatitudeDeg := resLat, LongitudeDeg := resLon }, resAzDeg)

/-! ## Auxiliary facts: rounding -/

/-- The binade of `x` is `e` when `2^e ≤ |x| < 2^(e+1)` and `e` is a normal
exponent. -/
theorem binade_eq (x : ℚ) (e : ℤ) (he : -1022 ≤ e) (h1 : (2 : ℚ) ^ e ≤ |x|)
    (h2 : |x| < (2 : ℚ) ^ (e + 1)) : binade x = e := by
  have hpos : 0 < |x| := lt_of_lt_of_le (zpow_pos (by norm_num) e) h1
  have hlog : Int.log 2 |x| = e := by
    apply le_antisymm
    · have h := (Int.lt_zpow_iff_log_lt (b := 2) (by norm_num) hpos).1 (by exact_mod_cast h2)
      omega
    · exact (Int.zpow_le_iff_le_log (b := 2) (by norm_num) hpos).1 (by exact_mod_cast h1)
  unfold binade
  rw [hlog]
  exact max_eq_left he

/-- Rounding to the nearest integer, once the integer part `f` is known. -/
theorem roundHalfEven_eval (t : ℚ) (f : ℤ) (h1 : (f : ℚ) ≤ t) (h2 : t < (f : ℚ) + 1) :
    roundHalfEven t =
      if t - f < 1 / 2 then f else if 1 / 2 < t - f then f + 1
      else if f % 2 = 0 then f else f + 1 := by
  have hf : ⌊t⌋ = f := by
    rw [Int.floor_eq_iff]
    exact ⟨h1, h2⟩
  unfold roundHalfEven
  rw [hf]

/-- Rounding to binary64, once the binade `e` of `x` and the integer part `f`
of `x / 2^(e-52)` are known. -/
theorem roundFloat64_eval (x : ℚ) (e f : ℤ) (he : -1022 ≤ e) (h1 : (2 : ℚ) ^ e ≤ |x|)
    (h2 : |x| < (2 : ℚ) ^ (e + 1)) (hf1 : (f : ℚ) ≤ x / (2 : ℚ) ^ (e - 52))
    (hf2 : x / (2 : ℚ) ^ (e - 52) < (f : ℚ) + 1) :
    roundFloat64 x =
      (((if x / (2 : ℚ) ^ (e - 52) - f < 1 / 2 then f
        else if 1 / 2 < x / (2 : ℚ) ^ (e - 52) - f then f + 1
        else if f % 2 = 0 then f else f + 1 : ℤ)) : ℚ) * (2 : ℚ) ^ (e - 52) := by
  unfold roundFloat64 ulp
  rw [binade_eq x e he h1 h2, roundHalfEven_eval _ f hf1 hf2]

/-- The same for a positive `x`, without absolute values. -/
theorem roundFloat64_eval_pos (x : ℚ) (e f : ℤ) (he : -1022 ≤ e) (h1 : (2 : ℚ) ^ e ≤ x)
    (h2 : x < (2 : ℚ) ^ (e + 1)) (hf1 : (f : ℚ) ≤ x / (2 : ℚ) ^ (e - 52))
    (hf2 : x / (2 : ℚ) ^ (e - 52) < (f : ℚ) + 1) :
    roundFloat64 x =
      (((if x / (2 : ℚ) ^ (e - 52) - f < 1 / 2 then f
        else if 1 / 2 < x / (2 : ℚ) ^ (e - 52) - f then f + 1
        else if f % 2 = 0 then f else f + 1 : ℤ)) : ℚ) * (2 : ℚ) ^ (e - 52) := by
  have hpos : 0 < x := lt_of_lt_of_le (zpow_pos (by norm_num) e) h1
  have habs : |x| = x := abs_of_pos hpos
  exact roundFloat64_eval x e f he (by rw [habs]; exact h1) (by rw [habs]; exact h2) hf1 hf2

/-- An integer is its own rounding. -/
theorem roundHalfEven_intCast (k : ℤ) : roundHalfEven (k : ℚ) = k := by
  rw [roundHalfEven_eval (k : ℚ) k le_rfl (by linarith)]
  norm_num

/-- A multiple of the spacing of its own binade is left unchanged by the
rounding. -/
theorem roundFloat64_of_multiple (x : ℚ) (k : ℤ) (h : x = (k : ℚ) * ulp x) :
    roundFloat64 x = x := by
  have hpos : (0 : ℚ) < ulp x := zpow_pos (by norm_num) _
  have hdiv : x / ulp x = (k : ℚ) := by
    rw [div_eq_iff (ne_of_gt hpos)]
    exact h
  unfold roundFloat64
  rw [hdiv, roundHalfEven_intCast]
  exact h.symm

/-- Zero is left unchanged by the rounding. -/
theorem roundFloat64_zero : roundFloat64 0 = 0 :=
  roundFloat64_of_multiple 0 0 (by simp)

/-- Every integer of magnitude at most `2^53` is a binary64 value. -/
theorem roundFloat64_intCast (m : ℤ) (h : |m| ≤ 2 ^ 53) : roundFloat64 (m : ℚ) = m := by
  rcases eq_or_ne m 0 with h0 | h0
  · subst h0
    simpa using roundFloat64_zero
  have habs1 : (1 : ℚ) ≤ |(m : ℚ)| := by
    have : (1 : ℤ) ≤ |m| := Int.one_le_abs h0
    exact_mod_cast this
  have habs2 : |(m : ℚ)| ≤ 2 ^ 53 := by exact_mod_cast h
  have hpos : (0 : ℚ) < |(m : ℚ)| := lt_of_lt_of_le one_pos habs1
  have he0 : 0 ≤ Int.log 2 |(m : ℚ)| := by
    apply (Int.zpow_le_iff_le_log (b := 2) (by norm_num) hpos).1
    simpa using habs1
  have he1 : Int.log 2 |(m : ℚ)| < 54 := by
    apply (Int.lt_zpow_iff_log_lt (b := 2) (by norm_num) hpos).1
    have : |(m : ℚ)| < 2 ^ 54 := lt_of_le_of_lt habs2 (by norm_num)
    exact_mod_cast this
  have hlow : ((2 : ℚ)) ^ (Int.log 2 |(m : ℚ)|) ≤ |(m : ℚ)| := by
    have hle := Int.zpow_log_le_self (b := 2) (r := |(m : ℚ)|) (by norm_num) hpos
    simpa using hle
  have hbin : binade (m : ℚ) = Int.log 2 |(m : ℚ)| := by
    unfold binade
    exact max_eq_left (by omega)
  obtain ⟨n, hn⟩ : ∃ n : ℕ, Int.log 2 |(m : ℚ)| = n := ⟨_, (Int.toNat_of_nonneg he0).symm⟩
  rw [hn] at he1 hlow hbin
  have hn54 : n < 54 := by exact_mod_cast he1
  rw [zpow_natCast] at hlow
  rcases Nat.lt_or_ge n 53 with hlt | hge
  · apply roundFloat64_of_multiple (m : ℚ) (m * 2 ^ (52 - n))
    unfold ulp
    rw [hbin]
    have hexp : ((n : ℤ) - 52) = -((52 - n : ℕ) : ℤ) := by omega
    rw [hexp, zpow_neg, zpow_natCast]
    push_cast
    field_simp
  · have hn53 : n = 53 := by omega
    subst hn53
    have habs : |(m : ℚ)| = 2 ^ 53 := le_antisymm habs2 hlow
    have hul : ulp (m : ℚ) = 2 := by
      unfold ulp
      rw [hbin]
      norm_num
    rcases abs_eq (by norm_num : (0 : ℚ) ≤ 2 ^ 53) |>.1 habs with hm | hm
    · apply roundFloat64_of_multiple (m : ℚ) (2 ^ 52)
      rw [hul, hm]
      norm_num
    · apply roundFloat64_of_multiple (m : ℚ) (-2 ^ 52)
      rw [hul, hm]
      norm_num

/-- Every integer of magnitude at most `2^53` is a finite `float64`. -/
theorem isFloat64_intCast (m : ℤ) (h : |m| ≤ 2 ^ 53) : isFloat64 (m : ℚ) := by
  have hb := abs_le.1 h
  have h1 : (-(2 : ℚ) ^ 53) ≤ (m : ℚ) := by exact_mod_cast hb.1
  have h2 : (m : ℚ) ≤ (2 : ℚ) ^ 53 := by exact_mod_cast hb.2
  refine ⟨roundFloat64_intCast m h, ?_, ?_⟩
  · have : -(2 : ℚ) ^ 1024 < -(2 : ℚ) ^ 53 := by norm_num
    linarith
  · have : (2 : ℚ) ^ 53 < (2 : ℚ) ^ 1024 := by norm_num
    linarith

/-- A rounded value inside the finite range is the `float64` result. -/
theorem Float64.ofRat_eq_finite (x r : ℚ) (h : roundFloat64 x = r)
    (hlo : -(2 : ℚ) ^ 1024 < r) (hhi : r < (2 : ℚ) ^ 1024) :
    Float64.ofRat x = Float64.finite r := by
  unfold Float64.ofRat
  rw [h, if_neg (not_le.2 hhi), if_neg (not_le.2 hlo)]

/-! ## Auxiliary facts: InvertAzimuth -/

/-- The constant expression `180%360` is `180`. -/
theorem const_180_mod_360 : (((180 % 360 : ℤ)) : ℚ) = 180 := by
  norm_num

/-- The constant 180 is a `float64` value: its conversion is exact. -/
theorem Float64.ofRat_180 : Float64.ofRat 180 = Float64.finite 180 := by
  have h := isFloat64_intCast 180 (by norm_num)
  have h180 : ((180 : ℤ) : ℚ) = 180 := by norm_num
  rw [h180] at h
  exact Float64.ofRat_eq_finite 180 180 h.1 h.2.1 h.2.2

/-- On a finite azimuth the body of `InvertAzimuth` is the rounded sum with
180 and nothing else. -/
theorem InvertAzimuth_finite (x r : ℚ) (h : roundFloat64 (x + 180) = r)
    (hlo : -(2 : ℚ) ^ 1024 < r) (hhi : r < (2 : ℚ) ^ 1024) :
    InvertAzimuth (Float64.finite x) = Float64.finite r := by
  unfold InvertAzimuth
  rw [const_180_mod_360, Float64.ofRat_180]
  exact Float64.ofRat_eq_finite (x + 180) r h hlo hhi

/-- When the sum with 180 is a `float64` value the addition is exact. -/
theorem InvertAzimuth_of_exact (x : ℚ) (h : isFloat64 (x + 180)) :
    InvertAzimuth (Float64.finite x) = Float64.finite (x + 180) :=
  InvertAzimuth_finite x (x + 180) h.1 h.2.1 h.2.2

/-- The non-finite values pass through `InvertAzimuth` unchanged. -/
theorem InvertAzimuth_nonfinite :
    InvertAzimuth Float64.nan = Float64.nan ∧
      InvertAzimuth Float64.posInf = Float64.posInf ∧
      InvertAzimuth Float64.negInf = Float64.negInf := by
  unfold InvertAzimuth
  rw [const_180_mod_360, Float64.ofRat_180]
  exact ⟨rfl, rfl, rfl⟩

/-- On integer azimuths of magnitude at most `2^52` both additions are exact:
one application adds 180 and two applications add a full turn. -/
theorem InvertAzimuth_intCast (n : ℤ) (h : |n| ≤ 2 ^ 52) :
    InvertAzimuth (Float64.finite (n : ℚ)) = Float64.finite ((n : ℚ) + 180) ∧
      InvertAzimuth (InvertAzimuth (Float64.finite (n : ℚ))) =
        Float64.finite ((n : ℚ) + 360) := by
  have hb := abs_le.1 h
  have h1 : isFloat64 ((n : ℚ) + 180) := by
    have hc : (n : ℚ) + 180 = ((n + 180 : ℤ) : ℚ) := by push_cast; ring
    rw [hc]
    apply isFloat64_intCast
    rw [abs_le]
    constructor <;> omega
  have h2 : isFloat64 ((n : ℚ) + 180 + 180) := by
    have hc : (n : ℚ) + 180 + 180 = ((n + 360 : ℤ) : ℚ) := by push_cast; ring
    rw [hc]
    apply isFloat64_intCast
    rw [abs_le]
    constructor <;> omega
  have h3 : (n : ℚ) + 360 = (n : ℚ) + 180 + 180 := by ring
  rw [InvertAzimuth_of_exact _ h1, InvertAzimuth_of_exact _ h2, h3]
  exact ⟨rfl, rfl⟩

/-- The documented reduction lands in `[0,360)`. -/
theorem normalize360_range (x : ℚ) : 0 ≤ normalize360 x ∧ normalize360 x < 360 := by
  unfold normalize360
  have h1 : ((⌊x / 360⌋ : ℤ) : ℚ) ≤ x / 360 := Int.floor_le (x / 360)
  have h2 : x / 360 < ((⌊x / 360⌋ : ℤ) : ℚ) + 1 := Int.lt_floor_add_one (x / 360)
  have h3 : x = 360 * (x / 360) := by ring
  constructor
  · nlinarith
  · nlinarith

/-- The documented behaviour of `InvertAzimuth` stays in `[0,360)` for every
azimuth. -/
theorem InvertAzimuthDocumented_range (azDeg : ℚ) :
    0 ≤ InvertAzimuthDocumented azDeg ∧ InvertAzimuthDocumented azDeg < 360 :=
  normalize360_range (azDeg + 180)

/-! ## InvertAzimuth -/

/-- C1, evaluated at the azimuth 200, a `float64` value in `[0,360)`: the body
returns `200 + 180 = 380` (the addition is exact), which is not in `[0,360)`,
while the documented behaviour ("adds 180° and convert to [0,360[ interval")
gives 20. -/
theorem InvertAzimuth_at_200_leaves_range :
    (isFloat64 200 ∧ (0 : ℚ) ≤ 200 ∧ (200 : ℚ) < 360) ∧
      InvertAzimuth (Float64.finite 200) = Float64.finite 380 ∧
      (¬ ∃ v : ℚ, InvertAzimuth (Float64.finite 200) = Float64.finite v ∧ 0 ≤ v ∧ v < 360) ∧
      InvertAzimuthDocumented 200 = 20 := by
  have h200 : isFloat64 200 := by
    have h := isFloat64_intCast 200 (by norm_num)
    have hc : ((200 : ℤ) : ℚ) = 200 := by norm_num
    rw [hc] at h
    exact h
  have h380 : InvertAzimuth (Float64.finite 200) = Float64.finite 380 := by
    have h := (InvertAzimuth_intCast 200 (by norm_num)).1
    have hc : ((200 : ℤ) : ℚ) = 200 := by norm_num
    rw [hc] at h
    rw [h]
    norm_num
  refine ⟨⟨h200, by norm_num, by norm_num⟩, h380, ?_, ?_⟩
  · rintro ⟨v, hv, _, hlt⟩
    rw [h380] at hv
    have hv2 : (380 : ℚ) = v := Float64.finite.inj hv
    rw [← hv2] at hlt
    norm_num at hlt
  · unfold InvertAzimuthDocumented normalize360
    have hfloor : ⌊((200 : ℚ) + 180) / 360⌋ = 1 := by
      rw [Int.floor_eq_iff]
      constructor <;> norm_num
    rw [hfloor]
    norm_num

/-- C9 as stated fails at the `float64` nearest to 0.008
(`1152921504606847 / 2^57`): the first addition rounds to
`6333468450966471 / 2^45` and the second to `1583331928369529 / 2^42`, so two
applications return a value whose exact difference to the input is not an
integer multiple of 360; the same difference computed in `float64` is
`6333186975989761 / 2^44` (360.00000000000006), not a multiple of 360
either. -/
theorem InvertAzimuth_twice_not_congruent :
    isFloat64 (1152921504606847 / 144115188075855872) ∧
      InvertAzimuth (Float64.finite (1152921504606847 / 144115188075855872)) =
        Float64.finite (6333468450966471 / 35184372088832) ∧
      InvertAzimuth (InvertAzimuth (Float64.finite (1152921504606847 / 144115188075855872))) =
        Float64.finite (1583331928369529 / 4398046511104) ∧
      (¬ ∃ k : ℤ, (1583331928369529 / 4398046511104 : ℚ) -
          1152921504606847 / 144115188075855872 = (k : ℚ) * 360) ∧
      Float64.add (Float64.finite (1583331928369529 / 4398046511104))
          (Float64.finite (-(1152921504606847 / 144115188075855872))) =
        Float64.finite (6333186975989761 / 17592186044416) ∧
      (¬ ∃ k : ℤ, (6333186975989761 / 17592186044416 : ℚ) = (k : ℚ) * 360) := by
  have hx : isFloat64 (1152921504606847 / 144115188075855872) := by
    refine ⟨?_, by norm_num, by norm_num⟩
    rw [roundFloat64_eval_pos _ (-7) 4611686018427388 (by norm_num) (by norm_num) (by norm_num)
      (by norm_num) (by norm_num)]
    norm_num
  have h1 : InvertAzimuth (Float64.finite (1152921504606847 / 144115188075855872)) =
      Float64.finite (6333468450966471 / 35184372088832) := by
    apply InvertAzimuth_finite
    · rw [roundFloat64_eval_pos _ 7 6333468450966470 (by norm_num) (by norm_num) (by norm_num)
        (by norm_num) (by norm_num)]
      norm_num
    · norm_num
    · norm_num
  have h2 : InvertAzimuth (Float64.finite (6333468450966471 / 35184372088832)) =
      Float64.finite (1583331928369529 / 4398046511104) := by
    apply InvertAzimuth_finite
    · rw [roundFloat64_eval_pos _ 8 6333327713478115 (by norm_num) (by norm_num) (by norm_num)
        (by norm_num) (by norm_num)]
      norm_num
    · norm_num
    · norm_num
  have h3 : Float64.add (Float64.finite (1583331928369529 / 4398046511104))
      (Float64.finite (-(1152921504606847 / 144115188075855872))) =
      Float64.finite (6333186975989761 / 17592186044416) := by
    show Float64.ofRat _ = _
    apply Float64.ofRat_eq_finite
    · rw [roundFloat64_eval_pos _ 8 6333186975989760 (by norm_num) (by norm_num) (by norm_num)
        (by norm_num) (by norm_num)]
      norm_num
    · norm_num
    · norm_num
  refine ⟨hx, h1, ?_, ?_, h3, ?_⟩
  · rw [h1, h2]
  · rintro ⟨k, hk⟩
    have hk1 : (1 : ℚ) < k := by
      by_contra hc
      push_neg at hc
      nlinarith
    have hk2 : (k : ℚ) < 2 := by
      by_contra hc
      push_neg at hc
      nlinarith
    have hk3 : (1 : ℤ) < k := by exact_mod_cast hk1
    have hk4 : k < (2 : ℤ) := by exact_mod_cast hk2
    omega
  · rintro ⟨k, hk⟩
    have hk1 : (1 : ℚ) < k := by
      by_contra hc
      push_neg at hc
      nlinarith
    have hk2 : (k : ℚ) < 2 := by
      by_contra hc
      push_neg at hc
      nlinarith
    have hk3 : (1 : ℤ) < k := by exact_mod_cast hk1
    have hk4 : k < (2 : ℤ) := by exact_mod_cast hk2
    omega

/-- C9 as amended: for every finite azimuth `azDeg` whose sums `azDeg + 180`
and `azDeg + 180 + 180` are `float64` values (neither addition rounds),
`InvertAzimuth azDeg` is finite and differs from `azDeg + 180` by an integer
multiple of 360, and `InvertAzimuth (InvertAzimuth azDeg)` is finite and
differs from `azDeg` by an integer multiple of 360. -/
theorem InvertAzimuth_reverse_bearing_exact (azDeg : ℚ)
    (h1 : isFloat64 (azDeg + 180)) (h2 : isFloat64 (azDeg + 180 + 180)) :
    ∃ r rr : ℚ, InvertAzimuth (Float64.finite azDeg) = Float64.finite r ∧
      InvertAzimuth (InvertAzimuth (Float64.finite azDeg)) = Float64.finite rr ∧
      (∃ k : ℤ, r - (azDeg + 180) = (k : ℚ) * 360) ∧
      (∃ k : ℤ, rr - azDeg = (k : ℚ) * 360) := by
  refine ⟨azDeg + 180, azDeg + 180 + 180, InvertAzimuth_of_exact azDeg h1, ?_, ⟨0, ?_⟩, ⟨1, ?_⟩⟩
  · rw [InvertAzimuth_of_exact azDeg h1, InvertAzimuth_of_exact (azDeg + 180) h2]
  · simp
  · push_cast
    ring

/-- Witness for C9 as amended, at the azimuth 200: 380 and 560 are `float64`
values, so the hypotheses hold there. -/
theorem InvertAzimuth_reverse_bearing_exact_witness :
    ∃ r rr : ℚ, InvertAzimuth (Float64.finite 200) = Float64.finite r ∧
      InvertAzimuth (InvertAzimuth (Float64.finite 200)) = Float64.finite rr ∧
      (∃ k : ℤ, r - (200 + 180) = (k : ℚ) * 360) ∧
      (∃ k : ℤ, rr - 200 = (k : ℚ) * 360) :=
  InvertAzimuth_reverse_bearing_exact 200
    (by
      refine ⟨?_, by norm_num, by norm_num⟩
      rw [roundFloat64_eval_pos _ 8 (380 * 2 ^ 44) (by norm_num) (by norm_num) (by norm_num)
        (by norm_num) (by norm_num)]
      norm_num)
    (by
      refine ⟨?_, by norm_num, by norm_num⟩
      rw [roundFloat64_eval_pos _ 9 (560 * 2 ^ 43) (by norm_num) (by norm_num) (by norm_num)
        (by norm_num) (by norm_num)]
      norm_num)

/-! ## Model construction -/

/-- C2: while `WGS84` is built, the C initialiser receives 6378137 in its
first slot (`a`, the equatorial radius) and `1/298.257223563` in its second
slot (`f`, the flattening); this holds for every initialiser, and with the
initialiser that stores what it receives the model has `a = 6378137` and
`f = 1000000000/298257223563`. -/
theorem WGS84_init_arguments {G : Type} (cInit : (a : ℚ) → (f : ℚ) → G) :
    (WGS84 cInit).g = cInit 6378137 (1 / 298.257223563) ∧
      (WGS84 geod_init).g.a = 6378137 ∧
      (WGS84 geod_init).g.f = 1000000000 / 298257223563 := by
  refine ⟨rfl, rfl, ?_⟩
  show (1 : ℚ) / 298.257223563 = 1000000000 / 298257223563
  norm_num

/-- C3, evaluated at `NewGeodesic(1/298.257223563, 6378137)`, the call the
signature `NewGeodesic(f, a)` asks for: the C initialiser receives
`1/298.257223563` as equatorial radius and `6378137` as flattening, which is
not the model `geod_init(6378137, 1/298.257223563)`. -/
theorem NewGeodesic_passes_flattening_as_radius :
    (NewGeodesic geod_init (1 / 298.257223563) 6378137).g.a = 1 / 298.257223563 ∧
      (NewGeodesic geod_init (1 / 298.257223563) 6378137).g.f = 6378137 ∧
      (NewGeodesic geod_init (1 / 298.257223563) 6378137).g ≠
        geod_init 6378137 (1 / 298.257223563) := by
  refine ⟨rfl, rfl, ?_⟩
  intro h
  have ha : (1 : ℚ) / 298.257223563 = 6378137 := congrArg geod_geodesic.a h
  norm_num at ha

/-- C4 as stated fails: `NewGeodesic` has one result of type `Geodesic`, no
error result and no panicking statement, so it returns a model for the
arguments `(-5, -5)`, whose radius is not positive and whose flattening is
outside `(-1,1)` whichever argument is read as which. -/
theorem NewGeodesic_does_not_reject :
    ¬ (∀ f a : ℚ, (a ≤ 0 ∨ ¬ (-1 < f ∧ f < 1)) →
        ¬ ∃ m : Geodesic geod_geodesic, NewGeodesic geod_init f a = m) := by
  intro h
  exact h (-5) (-5) (Or.inl (by norm_num)) ⟨NewGeodesic geod_init (-5) (-5), rfl⟩

/-- C4 as amended: `NewGeodesic` performs no validation; for every pair of
arguments and every C initialiser it returns a model, the one the initialiser
builds from the two arguments. -/
theorem NewGeodesic_always_returns_model {G : Type} (cInit : (a : ℚ) → (f : ℚ) → G)
    (f a : ℚ) :
    ∃ m : Geodesic G, NewGeodesic cInit f a = m ∧ (m.g = cInit f a ∨ m.g = cInit a f) :=
  ⟨NewGeodesic cInit f a, rfl, Or.inl rfl⟩

/-! ## Inverse -/

/-- C10: for every C solver, model and pair of points, `Inverse` returns
exactly the triple the solver produces for the unmodified model and the
arguments `(pt1.LatitudeDeg, pt1.LongitudeDeg, pt2.LatitudeDeg,
pt2.LongitudeDeg)`, in that order: distance, azimuth at `pt1`, azimuth at
`pt2`. -/
theorem Inverse_forwards {G : Type} (cInverse : G → ℚ → ℚ → ℚ → ℚ → ℚ × ℚ × ℚ)
    (g : Geodesic G) (pt1 pt2 : Point) :
    Inverse cInverse g pt1 pt2 =
      cInverse g.g pt1.LatitudeDeg pt1.LongitudeDeg pt2.LatitudeDeg pt2.LongitudeDeg :=
  rfl

end geodesic
